import Mathlib

/-!
Verification development for the ScrapSnapAI waste-logging core.

The definitions below are a shallow embedding of the JavaScript source:

* `src/server/database/db.js` — the entity store (`logWaste`,
  `getWasteHistory`, `getWasteStats`, `getSuggestions`,
  `findEntryByImageHash`, `deleteEntryById`, `clearAllWasteData`);
* `src/server/index.js` — the `/api/analyze-waste` handler
  (reconciliation of a fresh analysis against a prior entry with the
  same image hash, then persistence).

Modelling conventions:

* JS numbers (currency) are embedded as exact rationals `ℚ`; the spec
  (§9) flags floating point for currency as a precision-policy decision,
  and none of the proved claims depends on float rounding error.
* ISO-8601 timestamp strings are embedded as `Nat` milliseconds since
  the epoch; all comparisons the code performs on them
  (`new Date(a) - new Date(b)`, string `>=`/`<=` on equal-format ISO
  strings) are order-isomorphic to `Nat` order.
* `Array.prototype.sort` is stable (ES2019), so it is embedded as a
  stable insertion sort on a key (`sortDescBy`), descending, matching
  the numeric comparators `(a, b) => keyB - keyA` used in the source.
* JS `x || default` on strings is `jsStr` (empty string is falsy);
  on numbers the only falsy rational is `0`, which the `|| 0` defaults
  map to `0` anyway, so `Option.getD 0` is faithful;
  `previous.id || null` is `jsId` (`0` is falsy).
* `String.prototype.toLowerCase` is embedded structurally as `lowerStr`
  (per-character lowercase), and `new Map(pairs)` with duplicate keys
  keeps the last pair, which `lookupPrev` mirrors with
  `filter …|>.getLast?`.
-/

namespace ScrapSnap

/-- JS `s || d` for an optional string field: `undefined`/`null` and the
empty string are falsy and give the default. -/
def jsStr (s : Option String) (d : String) : String :=
  match s with
  | none => d
  | some v => if v = "" then d else v

/-- JS `n || null` for an optional numeric id: `0` is falsy and becomes
`null`. -/
def jsId (o : Option Nat) : Option Nat :=
  match o with
  | some 0 => none
  | x => x

/-- Structural embedding of `String.prototype.toLowerCase`. -/
def lowerStr (s : String) : String := String.mk (s.data.map Char.toLower)

/-- `Math.round`: round half toward positive infinity. -/
def jsRound (x : ℚ) : ℤ := ⌊x + 1/2⌋

/-- The source's rounding policy: `Math.round(total * 10) / 10`. -/
def round10 (x : ℚ) : ℚ := (jsRound (x * 10) : ℚ) / 10

/-- A stored waste entry row (`db.js`, `logWaste`), field for field. -/
structure Entry where
  id : Nat
  image_path : String
  timestamp : Nat
  total_estimated_value : ℚ
  estimated_weight : String
  notes : String
  image_hash : String
  duplicate_of_entry_id : Option Nat
  consistency_note : String
  created_at : Nat
  deriving DecidableEq

/-- A stored waste item row (`db.js`, `logWaste`). -/
structure Item where
  id : Nat
  waste_entry_id : Nat
  name : String
  category : String
  estimated_amount : String
  condition : String
  estimated_value : ℚ
  deriving DecidableEq

/-- The camelCase item projection returned to callers
(`logWaste` return value, `getWasteHistory`, `findEntryByImageHash`). -/
structure ClientItem where
  id : Nat
  name : String
  category : String
  estimatedAmount : String
  condition : String
  estimatedValue : ℚ
  deriving DecidableEq

/-- The in-memory store (`db.js`, module-level `data`). -/
structure Store where
  entries : List Entry
  items : List Item
  nextEntryId : Nat
  nextItemId : Nat
  deriving DecidableEq

/-- The initial store state (`db.js`, initializer of `data`). -/
def Store.init : Store := ⟨[], [], 1, 1⟩

/-- An incoming analysis item as passed to `logWaste` (fields may be
absent on the duck-typed JS object). -/
structure ItemIn where
  name : String
  category : Option String
  estimatedAmount : Option String
  condition : Option String
  estimatedValue : Option ℚ
  deriving DecidableEq

/-- The argument record of `logWaste`. -/
structure WasteData where
  imagePath : String
  items : List ItemIn
  estimatedWeight : Option String
  timestamp : Nat
  notes : Option String
  imageHash : Option String
  duplicateOfEntryId : Option Nat
  consistencyNote : Option String
  deriving DecidableEq

/-- The record `logWaste` returns. -/
structure LoggedEntry where
  id : Nat
  imagePath : String
  timestamp : Nat
  totalEstimatedValue : ℚ
  items : List ClientItem
  deriving DecidableEq

/-- `items.reduce((sum, item) => sum + (item.estimatedValue || 0), 0)`. -/
def sumInVals (l : List ItemIn) : ℚ := (l.map (fun it => it.estimatedValue.getD 0)).sum

/-- One saved item row: the defensive defaults of `logWaste`'s
`items.map` body. -/
def mkItem (entryId itemId : Nat) (it : ItemIn) : Item :=
  { id := itemId
    waste_entry_id := entryId
    name := it.name
    category := jsStr it.category "unknown"
    estimated_amount := jsStr it.estimatedAmount ""
    condition := jsStr it.condition "unknown"
    estimated_value := it.estimatedValue.getD 0 }

/-- The `items.map` loop of `logWaste`: consecutive ids from `startId`. -/
def assignItems (entryId startId : Nat) : List ItemIn → List Item
  | [] => []
  | it :: rest => mkItem entryId startId it :: assignItems entryId (startId + 1) rest

/-- Snake-case row to camelCase client item (`logWaste` return mapping). -/
def toClientItem (it : Item) : ClientItem :=
  ⟨it.id, it.name, it.category, it.estimated_amount, it.condition, it.estimated_value⟩

/-- The entry row `logWaste` builds, with the total recomputed from the
items and all defensive string defaults applied. -/
def logEntryOf (st : Store) (now : Nat) (wd : WasteData) : Entry :=
  { id := st.nextEntryId
    image_path := wd.imagePath
    timestamp := wd.timestamp
    total_estimated_value := sumInVals wd.items
    estimated_weight := jsStr wd.estimatedWeight ""
    notes := jsStr wd.notes ""
    image_hash := jsStr wd.imageHash ""
    duplicate_of_entry_id := jsId wd.duplicateOfEntryId
    consistency_note := jsStr wd.consistencyNote ""
    created_at := now }

/-- `db.js` `logWaste`: recomputes the total from the passed items,
assigns the next entry id and consecutive item ids, and appends the
entry and its items.  `now` stands for `new Date()` (the `created_at`
stamp). -/
def logWaste (st : Store) (now : Nat) (wd : WasteData) : Store × LoggedEntry :=
  let entry := logEntryOf st now wd
  let savedItems := assignItems st.nextEntryId st.nextItemId wd.items
  let st' : Store :=
    { entries := st.entries ++ [entry]
      items := st.items ++ savedItems
      nextEntryId := st.nextEntryId + 1
      nextItemId := st.nextItemId + wd.items.length }
  (st', { id := st.nextEntryId
          imagePath := wd.imagePath
          timestamp := wd.timestamp
          totalEstimatedValue := sumInVals wd.items
          items := savedItems.map toClientItem })

/-- Stable insert for a descending sort on `key`: a later element goes
after every already-placed element whose key is `≥` its own, exactly the
placement a stable sort with comparator `(a, b) => key b - key a`
produces. -/
def insertDescBy {β : Type} [LinearOrder β] (key : α → β) (e : α) : List α → List α
  | [] => [e]
  | x :: xs => if key e < key x then x :: insertDescBy key e xs else e :: x :: xs

/-- Stable descending sort on `key`, embedding `Array.prototype.sort`
with a numeric `(a, b) => key b - key a` comparator (ES2019 sorts are
stable). -/
def sortDescBy {β : Type} [LinearOrder β] (key : α → β) : List α → List α
  | [] => []
  | e :: es => insertDescBy key e (sortDescBy key es)

/-- First element attaining the maximal key (earlier elements win ties);
the head of a stable descending sort. -/
def firstMaxBy {β : Type} [LinearOrder β] (key : α → β) : List α → Option α
  | [] => none
  | e :: es =>
    match firstMaxBy key es with
    | none => some e
    | some m => some (if key e < key m then m else e)

/-- An entry together with its joined items, the `{...entry, items}`
shape returned by `getWasteHistory` and `findEntryByImageHash`. -/
structure EntryWithItems where
  entry : Entry
  items : List ClientItem
  deriving DecidableEq

/-- The item join used by both readers:
`data.items.filter(i => i.waste_entry_id === id).map(camelCase)`. -/
def itemsFor (st : Store) (entryId : Nat) : List ClientItem :=
  (st.items.filter (fun it => it.waste_entry_id == entryId)).map toClientItem

/-- The `getWasteHistory` options record (`limit` defaults to 50). -/
structure HistoryOptions where
  limit : Option Nat
  startDate : Option Nat
  endDate : Option Nat

/-- `db.js` `getWasteHistory`: date-range filter, stable sort by
timestamp descending, `slice(0, limit)`, then the item join. -/
def getWasteHistory (st : Store) (opts : HistoryOptions) : List EntryWithItems :=
  let entries := st.entries
  let entries := match opts.startDate with
    | none => entries
    | some s => entries.filter (fun e => s ≤ e.timestamp)
  let entries := match opts.endDate with
    | none => entries
    | some t => entries.filter (fun e => e.timestamp ≤ t)
  ((sortDescBy (fun e => e.timestamp) entries).take (opts.limit.getD 50)).map
    (fun e => ⟨e, itemsFor st e.id⟩)

/-- `db.js` `findEntryByImageHash`: falsy-hash guard, filter by hash,
stable sort by timestamp descending, first element, item join. -/
def findEntryByImageHash (st : Store) (imageHash : String) : Option EntryWithItems :=
  if imageHash = "" then none
  else
    match (sortDescBy (fun e => e.timestamp)
        (st.entries.filter (fun e => e.image_hash == imageHash))).head? with
    | none => none
    | some e => some ⟨e, itemsFor st e.id⟩

/-- Result record of the delete / clear operations. -/
structure DeleteResult where
  success : Bool
  message : String
  deriving DecidableEq

/-- `db.js` `deleteEntryById`: not-found failure leaves the store
untouched; otherwise the entry's items are filtered out and the entry
at the found index is spliced out.  Id counters are not touched. -/
def deleteEntryById (st : Store) (id : Nat) : Store × DeleteResult :=
  if st.entries.any (fun e => e.id == id) then
    ({ st with
        entries := st.entries.eraseP (fun e => e.id == id)
        items := st.items.filter (fun it => it.waste_entry_id != id) }
    , ⟨true, "Entry #" ++ toString id ++ " deleted"⟩)
  else
    (st, ⟨false, "Entry #" ++ toString id ++ " not found"⟩)

/-- `db.js` `clearAllWasteData`: resets entries, items and both id
counters to the initial state. -/
def clearAllWasteData (_st : Store) : Store × DeleteResult :=
  (Store.init, ⟨true, "All waste data cleared"⟩)

/-- The UTC calendar-day index of a timestamp: what
`new Date(ts).toISOString().split('T')[0]` buckets by. -/
def utcDay (ts : Nat) : Nat := ts / 86400000

/-- 30 days in milliseconds (`thirtyDaysAgo.setDate(getDate() - 30)`). -/
def thirtyDaysMs : Nat := 2592000000

/-- One `dailyStats` bucket (`{date, entries, total_value}`), with the
date kept as its UTC day index. -/
structure DailyBucket where
  date : Nat
  entries : Nat
  total_value : ℚ
  deriving DecidableEq

/-- One step of building `dailyMap`: update the bucket of the entry's
UTC day in place, or append a fresh bucket (JS object insertion
order). -/
def addDaily (m : List DailyBucket) (e : Entry) : List DailyBucket :=
  let d := utcDay e.timestamp
  if m.any (fun b => b.date == d) then
    m.map (fun b =>
      if b.date == d then
        { b with entries := b.entries + 1, total_value := b.total_value + e.total_estimated_value }
      else b)
  else
    m ++ [⟨d, 1, e.total_estimated_value⟩]

/-- The `dailyStats` computation of `getWasteStats`: keep entries with
`timestamp >= thirtyDaysAgo` (boundary included), bucket by UTC day,
sort by date descending. -/
def dailyBuckets (cutoff : Nat) (entries : List Entry) : List DailyBucket :=
  sortDescBy (fun b => b.date)
    ((entries.filter (fun e => cutoff ≤ e.timestamp)).foldl addDaily [])

/-- The `overall` block of `getWasteStats`. -/
structure OverallStats where
  total_entries : Nat
  total_value : ℚ
  avg_value : ℚ
  deriving DecidableEq

/-- An accumulator cell of the `itemCounts` grouping. -/
structure ItemAcc where
  name : String
  category : String
  frequency : Nat
  total_value : ℚ
  values : List ℚ
  deriving DecidableEq

/-- One step of the `itemCounts` grouping of `getWasteStats` (keyed by
exact item name, first occurrence fixes the category). -/
def addItemAcc (m : List ItemAcc) (it : Item) : List ItemAcc :=
  if m.any (fun a => a.name == it.name) then
    m.map (fun a =>
      if a.name == it.name then
        { a with
            frequency := a.frequency + 1
            total_value := a.total_value + it.estimated_value
            values := a.values ++ [it.estimated_value] }
      else a)
  else
    m ++ [⟨it.name, it.category, 1, it.estimated_value, [it.estimated_value]⟩]

/-- A `topItems` element after the average is computed and the raw
values list dropped. -/
structure TopItem where
  name : String
  category : String
  frequency : Nat
  total_value : ℚ
  avg_value : ℚ
  deriving DecidableEq

/-- `topItems`: grouped, averaged, sorted by frequency descending,
top 10. -/
def topItemsOf (items : List Item) : List TopItem :=
  ((sortDescBy (fun a => a.frequency)
      ((items.foldl addItemAcc []).map (fun a =>
        ({ name := a.name
           category := a.category
           frequency := a.frequency
           total_value := a.total_value
           avg_value := if a.values.length > 0 then a.values.sum / a.values.length else 0
         } : TopItem)))).take 10)

/-- A `categoryStats` element. -/
structure CategoryStat where
  category : String
  frequency : Nat
  total_value : ℚ
  deriving DecidableEq

/-- One step of the `categoryCounts` grouping (`item.category ||
'unknown'`). -/
def addCatAcc (m : List CategoryStat) (it : Item) : List CategoryStat :=
  let c := if it.category = "" then "unknown" else it.category
  if m.any (fun a => a.category == c) then
    m.map (fun a =>
      if a.category == c then
        { a with frequency := a.frequency + 1, total_value := a.total_value + it.estimated_value }
      else a)
  else
    m ++ [⟨c, 1, it.estimated_value⟩]

/-- `categoryStats`: grouped, sorted by total value descending. -/
def categoryStatsOf (items : List Item) : List CategoryStat :=
  sortDescBy (fun a => a.total_value) (items.foldl addCatAcc [])

/-- The full `getWasteStats` result. -/
structure Stats where
  overall : OverallStats
  topItems : List TopItem
  dailyStats : List DailyBucket
  categoryStats : List CategoryStat
  deriving DecidableEq

/-- `db.js` `getWasteStats`, with `now` standing for `new Date()`. -/
def getWasteStats (st : Store) (now : Nat) : Stats :=
  let totalValue := (st.entries.map (fun e => e.total_estimated_value)).sum
  { overall :=
      { total_entries := st.entries.length
        total_value := totalValue
        avg_value := if st.entries.length > 0 then totalValue / st.entries.length else 0 }
    topItems := topItemsOf st.items
    dailyStats := dailyBuckets (now - thirtyDaysMs) st.entries
    categoryStats := categoryStatsOf st.items }

/-- A suggestion; `amount` is the numeric payload the source
interpolates into the description / savings strings (accumulated value,
30% savings, or trend percentage; `0` for the best-practice entry). -/
structure Suggestion where
  type : String
  priority : String
  amount : ℚ
  deriving DecidableEq

/-- The source's `priorityOrder` map. -/
def priorityOrder (p : String) : Nat :=
  if p = "high" then 3 else if p = "medium" then 2 else if p = "low" then 1 else 0

/-- Mean `total_value` of a list of daily buckets (`reduce(...) /
length`; `0` for the empty list, where the source never divides). -/
def bucketsAvg (l : List DailyBucket) : ℚ := (l.map (fun b => b.total_value)).sum / l.length

/-- Mean over the 3 most recent buckets (`dailyStats.slice(0, 3)`). -/
def recentAvg3 (l : List DailyBucket) : ℚ := bucketsAvg (l.take 3)

/-- The portion-adjustment rule of `getSuggestions`. -/
def portionSugs : List TopItem → List Suggestion
  | [] => []
  | t :: _ =>
    if t.frequency ≥ 5 then [⟨"portion_adjustment", "high", t.total_value⟩] else []

/-- The menu/category review rule of `getSuggestions`. -/
def categorySugs (cats : List CategoryStat) : List Suggestion :=
  cats.filterMap (fun c =>
    if c.frequency ≥ 10 ∧ c.total_value > 50 then
      some ⟨"menu_change", "medium", c.total_value * (3/10)⟩
    else none)

/-- The daily-trend rule of `getSuggestions`. -/
def trendSugs (daily : List DailyBucket) : List Suggestion :=
  if daily.length > 0 then
    if recentAvg3 daily > bucketsAvg daily * (6/5) ∧ bucketsAvg daily > 0 then
      [⟨"trend_alert", "high", (recentAvg3 daily / bucketsAvg daily - 1) * 100⟩]
    else []
  else []

/-- The unconditional best-practice suggestion. -/
def bestPracticeSug : Suggestion := ⟨"best_practice", "low", 0⟩

/-- `db.js` `getSuggestions`: the four rule families in emission order,
stably sorted by priority descending. -/
def getSuggestions (st : Store) (now : Nat) : List Suggestion :=
  let stats := getWasteStats st now
  sortDescBy (fun s => priorityOrder s.priority)
    (portionSugs stats.topItems ++ categorySugs stats.categoryStats ++
      trendSugs stats.dailyStats ++ [bestPracticeSug])

/-- A fresh vision analysis as the `/api/analyze-waste` handler consumes
it. -/
structure Analysis where
  items : List ItemIn
  estimatedWeight : Option String
  notes : Option String
  totalEstimatedValue : ℚ
  deriving DecidableEq

/-- `new Map(previous.items.map(it => [lower(name), it]))` lookup:
duplicate keys keep the last pair. -/
def lookupPrev (prevItems : List ClientItem) (key : String) : Option ClientItem :=
  (prevItems.filter (fun p => lowerStr p.name == key)).getLast?

/-- The best-effort value alignment of the handler: a fresh item takes
the prior item of the same (case-insensitive) name's value when one
exists (`prev?.estimatedValue ?? it.estimatedValue`). -/
def alignOne (prevItems : List ClientItem) (it : ItemIn) : ItemIn :=
  match lookupPrev prevItems (lowerStr it.name) with
  | some p => { it with estimatedValue := some p.estimatedValue }
  | none => it

/-- The alignment step guarded by `previous.items.length > 0`. -/
def alignWith (prevItems : List ClientItem) (fresh : List ItemIn) : List ItemIn :=
  if prevItems.length > 0 then fresh.map (alignOne prevItems) else fresh

/-- The note attached when values are aligned to a prior entry. -/
def consistencyMsg (prevId : Nat) : String :=
  "Values aligned with duplicate of entry #" ++ toString prevId ++ " for consistency."

/-- The reconciliation step of the `/api/analyze-waste` handler: given
the optional prior match, produce the adjusted analysis, the
`duplicateOfEntryId` back-reference and the consistency note. -/
def reconcile (previous : Option EntryWithItems) (a : Analysis) :
    Analysis × Option Nat × String :=
  match previous with
  | none =>
    ({ a with totalEstimatedValue := round10 (sumInVals a.items) }, none, "")
  | some prev =>
    let items' := alignWith prev.items a.items
    let currentTotal := sumInVals items'
    let previousTotal := prev.entry.total_estimated_value
    if previousTotal > 0 then
      ({ a with items := items', totalEstimatedValue := previousTotal }
      , jsId (some prev.entry.id), consistencyMsg prev.entry.id)
    else
      ({ a with items := items', totalEstimatedValue := round10 currentTotal }
      , jsId (some prev.entry.id), "")

/-- `[analysis.notes || '', consistencyNote].filter(Boolean).join('
').trim()`. -/
def joinNotes (n c : String) : String :=
  (String.intercalate " " (([n, c]).filter (fun s => ¬ s = ""))).trim

/-- The response of the `/api/analyze-waste` handler. -/
structure IngestResponse where
  analysis : Analysis
  wasteEntry : LoggedEntry
  deriving DecidableEq

/-- The `wasteData` record the handler passes to `logWaste`, given the
output `rec'` of the reconciliation step: the reconciled items, the
joined notes, the hash, the back-reference and the consistency note (no
total — `logWaste` recomputes it). -/
def ingestWD (now : Nat) (imageHash imagePath : String) (a : Analysis)
    (rec' : Analysis × Option Nat × String) : WasteData :=
  { imagePath := imagePath
    items := rec'.1.items
    estimatedWeight := rec'.1.estimatedWeight
    timestamp := now
    notes := some (joinNotes (jsStr a.notes "") rec'.2.2)
    imageHash := some imageHash
    duplicateOfEntryId := rec'.2.1
    consistencyNote := some rec'.2.2 }

/-- The `/api/analyze-waste` handler with the vision collaborator's
analysis taken as an input: hash lookup, reconciliation, persistence.
`now` stands for `new Date()` (both the entry timestamp and
`created_at`). -/
def ingest (st : Store) (now : Nat) (imageHash imagePath : String) (a : Analysis) :
    Store × IngestResponse :=
  let previous := findEntryByImageHash st imageHash
  let rec' := reconcile previous a
  let res := logWaste st now (ingestWD now imageHash imagePath a rec')
  (res.1, ⟨rec'.1, res.2⟩)

/-- An operation on the store, for the id-monotonicity claims. -/
inductive Op where
  | log (now : Nat) (wd : WasteData)
  | del (id : Nat)

/-- Apply one operation to the store (dropping the returned record). -/
def applyOp (st : Store) : Op → Store
  | .log now wd => (logWaste st now wd).1
  | .del i => (deleteEntryById st i).1

/-- Run a sequence of operations. -/
def runOps (st : Store) : List Op → Store
  | [] => st
  | op :: ops => runOps (applyOp st op) ops

/-- The entry ids assigned by the appends of an operation sequence, in
execution order. -/
def entryIdsAssigned (st : Store) : List Op → List Nat
  | [] => []
  | .log now wd :: ops =>
    (logWaste st now wd).2.id :: entryIdsAssigned (applyOp st (.log now wd)) ops
  | .del i :: ops => entryIdsAssigned (applyOp st (.del i)) ops

/-- The item ids assigned by the appends of an operation sequence, in
execution order. -/
def itemIdsAssigned (st : Store) : List Op → List Nat
  | [] => []
  | .log now wd :: ops =>
    ((logWaste st now wd).2.items.map (fun it => it.id)) ++
      itemIdsAssigned (applyOp st (.log now wd)) ops
  | .del i :: ops => itemIdsAssigned (applyOp st (.del i)) ops

/-- Number of append operations in a sequence. -/
def countLogs : List Op → Nat
  | [] => 0
  | .log _ _ :: ops => countLogs ops + 1
  | .del _ :: ops => countLogs ops

/-- Total number of items carried by the append operations. -/
def totalItemsOf : List Op → Nat
  | [] => 0
  | .log _ wd :: ops => wd.items.length + totalItemsOf ops
  | .del _ :: ops => totalItemsOf ops

/-- Modelled from the spec: the *local* calendar date of a timestamp.
The spec says `dailyStats` buckets use "the entry's local date", which
needs the environment's UTC offset (milliseconds, positive east of
UTC); the source has no such offset and uses `toISOString` (UTC). -/
def specLocalDay (offsetMs : ℤ) (ts : Nat) : ℤ := ((ts : ℤ) + offsetMs).fdiv 86400000

/-- The per-day reference bucket: count and value sum of the entries of
one UTC day. -/
def bucketFor (d : Nat) (l : List Entry) : DailyBucket :=
  ⟨d, l.countP (fun e => utcDay e.timestamp == d),
    ((l.filter (fun e => utcDay e.timestamp == d)).map (fun e => e.total_estimated_value)).sum⟩

/-! ### Concrete instances used to evaluate the claims -/

/-- An entry logged at 01:00 UTC on day 0: its UTC calendar date and its
local calendar date at UTC−5 differ. -/
def e8 : Entry := ⟨1, "p", 3600000, 5, "", "", "h", none, "", 0⟩

/-- A store holding one prior entry (hash `"h"`, total $5) with one item
("apple", $5). -/
def stC1 : Store :=
  ⟨[⟨1, "p", 100, 5, "", "", "h", none, "", 0⟩],
   [⟨1, 1, "apple", "unknown", "", "unknown", 5⟩], 2, 2⟩

/-- The record `findEntryByImageHash stC1 "h"` resolves to. -/
def prevC1 : EntryWithItems :=
  ⟨⟨1, "p", 100, 5, "", "", "h", none, "", 0⟩,
   [⟨1, "apple", "unknown", "", "unknown", 5⟩]⟩

/-- A fresh analysis of the same image naming a different item. -/
def aC1 : Analysis := ⟨[⟨"banana", none, none, none, some 3⟩], none, none, 0⟩

/-- A fresh analysis whose item values sum to $7.03. -/
def aC2 : Analysis := ⟨[⟨"soup", none, none, none, some (703/100)⟩], none, none, 0⟩

/-- A fresh analysis whose item values sum to $7.06. -/
def aW2 : Analysis := ⟨[⟨"rice", none, none, none, some (706/100)⟩], none, none, 0⟩

/-- An analysis with two items whose names collide case-insensitively. -/
def aC4 : Analysis :=
  ⟨[⟨"Apple", none, none, none, some 2⟩, ⟨"apple", none, none, none, some 3⟩], none, none, 0⟩

/-- An analysis with two distinctly named items. -/
def aW4 : Analysis :=
  ⟨[⟨"apple", none, none, none, some 2⟩, ⟨"banana", none, none, none, some 3⟩], none, none, 0⟩

/-- A store with two entries and one item per entry. -/
def stW6 : Store :=
  ⟨[⟨1, "p", 100, 5, "", "", "h", none, "", 0⟩, ⟨2, "q", 200, 7, "", "", "g", none, "", 0⟩],
   [⟨1, 1, "apple", "unknown", "", "unknown", 5⟩, ⟨2, 2, "pear", "unknown", "", "unknown", 7⟩],
   3, 3⟩

/-- A store with two entries sharing hash `"h"` and the same timestamp. -/
def stC7 : Store :=
  ⟨[⟨1, "p", 100, 1, "", "", "h", none, "", 0⟩, ⟨2, "q", 100, 2, "", "", "h", none, "", 0⟩],
   [], 3, 1⟩

/-- A store with a single entry of hash `"h"`. -/
def stW7 : Store := ⟨[⟨1, "p", 100, 5, "", "", "h", none, "", 0⟩], [], 2, 1⟩

/-- The record `findEntryByImageHash stW7 "h"` resolves to. -/
def rW7 : EntryWithItems := ⟨⟨1, "p", 100, 5, "", "", "h", none, "", 0⟩, []⟩

/-- An entry on UTC day `d` with value `v`. -/
def mkDayEntry (i d : Nat) (v : ℚ) : Entry := ⟨i, "p", d * 86400000, v, "", "", "", none, "", 0⟩

/-- Five entries over five days with a value spike on the last three. -/
def stW9 : Store :=
  ⟨[mkDayEntry 1 30 1, mkDayEntry 2 31 1, mkDayEntry 3 32 13, mkDayEntry 4 33 13,
    mkDayEntry 5 34 13], [], 6, 1⟩

/-- A store with one entry and no items. -/
def stW10 : Store := ⟨[⟨1, "p", 100, 5, "", "", "h", none, "", 0⟩], [], 2, 1⟩

/-! ### Lemmas about the stable descending sort -/

theorem insertDescBy_perm {β : Type} [LinearOrder β] (key : α → β) (e : α) (l : List α) :
    (insertDescBy key e l).Perm (e :: l) := by
  induction l with
  | nil => simp [insertDescBy]
  | cons x xs ih =>
    by_cases h : key e < key x
    · simp only [insertDescBy, if_pos h]
      exact (ih.cons x).trans (List.Perm.swap e x xs)
    · simp [insertDescBy, if_neg h]

theorem sortDescBy_perm {β : Type} [LinearOrder β] (key : α → β) (l : List α) :
    (sortDescBy key l).Perm l := by
  induction l with
  | nil => simp [sortDescBy]
  | cons e es ih =>
    exact (insertDescBy_perm key e (sortDescBy key es)).trans (ih.cons e)

theorem insertDescBy_pairwise {β : Type} [LinearOrder β] (key : α → β) (e : α) (l : List α)
    (h : l.Pairwise (fun a b => key b ≤ key a)) :
    (insertDescBy key e l).Pairwise (fun a b => key b ≤ key a) := by
  induction l with
  | nil => simp [insertDescBy]
  | cons x xs ih =>
    rcases List.pairwise_cons.mp h with ⟨hx, hxs⟩
    by_cases hk : key e < key x
    · simp only [insertDescBy, if_pos hk]
      refine List.pairwise_cons.mpr ⟨?_, ih hxs⟩
      intro b hb
      rcases List.mem_cons.mp ((insertDescBy_perm key e xs).mem_iff.mp hb) with rfl | hb
      · exact hk.le
      · exact hx b hb
    · simp only [insertDescBy, if_neg hk]
      refine List.pairwise_cons.mpr ⟨?_, h⟩
      intro b hb
      rcases List.mem_cons.mp hb with rfl | hb
      · exact le_of_not_lt hk
      · exact (hx b hb).trans (le_of_not_lt hk)

theorem sortDescBy_pairwise {β : Type} [LinearOrder β] (key : α → β) (l : List α) :
    (sortDescBy key l).Pairwise (fun a b => key b ≤ key a) := by
  induction l with
  | nil => simp [sortDescBy]
  | cons e es ih => exact insertDescBy_pairwise key e _ ih

theorem insertDescBy_head? {β : Type} [LinearOrder β] (key : α → β) (e : α) (l : List α) :
    (insertDescBy key e l).head? =
      some ((l.head?).elim e (fun x => if key e < key x then x else e)) := by
  cases l with
  | nil => simp [insertDescBy]
  | cons x xs => by_cases h : key e < key x <;> simp [insertDescBy, h]

theorem sortDescBy_head? {β : Type} [LinearOrder β] (key : α → β) (l : List α) :
    (sortDescBy key l).head? = firstMaxBy key l := by
  induction l with
  | nil => simp [sortDescBy, firstMaxBy]
  | cons e es ih =>
    simp only [sortDescBy, firstMaxBy, insertDescBy_head?, ih]
    cases h : firstMaxBy key es <;> simp

theorem firstMaxBy_eq_none {β : Type} [LinearOrder β] (key : α → β) (l : List α) :
    firstMaxBy key l = none ↔ l = [] := by
  cases l with
  | nil => simp [firstMaxBy]
  | cons e es =>
    cases h : firstMaxBy key es <;> simp [firstMaxBy, h]

theorem firstMaxBy_mem {β : Type} [LinearOrder β] (key : α → β) {l : List α} {m : α}
    (h : firstMaxBy key l = some m) : m ∈ l := by
  induction l with
  | nil => simp [firstMaxBy] at h
  | cons e es ih =>
    cases h' : firstMaxBy key es with
    | none =>
      simp only [firstMaxBy, h'] at h
      simp [← Option.some_inj.mp h]
    | some m' =>
      simp only [firstMaxBy, h'] at h
      by_cases hk : key e < key m'
      · rw [if_pos hk] at h
        exact List.mem_cons_of_mem e (ih (h ▸ h'))
      · rw [if_neg hk] at h
        simp [← Option.some_inj.mp h]

theorem firstMaxBy_le {β : Type} [LinearOrder β] (key : α → β) {l : List α} :
    ∀ {m : α}, firstMaxBy key l = some m → ∀ x ∈ l, key x ≤ key m := by
  induction l with
  | nil => intro m h; simp [firstMaxBy] at h
  | cons e es ih =>
    intro m h
    cases h' : firstMaxBy key es with
    | none =>
      have hes : es = [] := (firstMaxBy_eq_none key es).mp h'
      simp only [firstMaxBy, h'] at h
      subst hes
      intro x hx
      rcases List.mem_singleton.mp hx with rfl
      exact (Option.some_inj.mp h) ▸ le_rfl
    | some m' =>
      simp only [firstMaxBy, h'] at h
      by_cases hk : key e < key m'
      · rw [if_pos hk] at h
        have hm : m' = m := Option.some_inj.mp h
        subst hm
        intro x hx
        rcases List.mem_cons.mp hx with rfl | hx
        · exact hk.le
        · exact ih h' x hx
      · rw [if_neg hk] at h
        have hm : e = m := Option.some_inj.mp h
        subst hm
        intro x hx
        rcases List.mem_cons.mp hx with rfl | hx
        · exact le_rfl
        · exact (ih h' x hx).trans (le_of_not_lt hk)

theorem firstMaxBy_split {β : Type} [LinearOrder β] (key : α → β) {l : List α} :
    ∀ {m : α}, firstMaxBy key l = some m →
      ∃ l₁ l₂, l = l₁ ++ m :: l₂ ∧ ∀ x ∈ l₁, key x < key m := by
  induction l with
  | nil => intro m h; simp [firstMaxBy] at h
  | cons e es ih =>
    intro m h
    cases h' : firstMaxBy key es with
    | none =>
      have hes : es = [] := (firstMaxBy_eq_none key es).mp h'
      simp only [firstMaxBy, h'] at h
      subst hes
      exact ⟨[], [], by simp [← Option.some_inj.mp h], by simp⟩
    | some m' =>
      simp only [firstMaxBy, h'] at h
      by_cases hk : key e < key m'
      · rw [if_pos hk] at h
        have hm : m' = m := Option.some_inj.mp h
        subst hm
        rcases ih h' with ⟨l₁, l₂, hsplit, hlt⟩
        refine ⟨e :: l₁, l₂, by simp [hsplit], ?_⟩
        intro x hx
        rcases List.mem_cons.mp hx with rfl | hx
        · exact hk
        · exact hlt x hx
      · rw [if_neg hk] at h
        have hm : e = m := Option.some_inj.mp h
        subst hm
        exact ⟨[], es, rfl, by simp⟩

/-! ### Id assignment (claims C3, C5, C6) -/

theorem range'_glue : ∀ (m s n : Nat), List.range' s m ++ List.range' (s + m) n = List.range' s (m + n) := by
  intro m
  induction m with
  | zero => intro s n; simp
  | succ m ih =>
    intro s n
    have h1 : s + (m + 1) = (s + 1) + m := by omega
    have h2 : m + 1 + n = (m + n) + 1 := by omega
    simp only [List.range', List.cons_append, h1, h2, ih (s + 1) n]

theorem ge_of_mem_range' : ∀ (n s x : Nat), x ∈ List.range' s n → s ≤ x := by
  intro n
  induction n with
  | zero => intro s x hx; simp [List.range'] at hx
  | succ n ih =>
    intro s x hx
    rcases List.mem_cons.mp hx with rfl | hx
    · exact le_rfl
    · exact (Nat.le_succ s).trans (ih (s + 1) x hx)

theorem range'_pairwise_lt : ∀ (n s : Nat), (List.range' s n).Pairwise (fun a b => a < b) := by
  intro n
  induction n with
  | zero => intro s; simp [List.range']
  | succ n ih =>
    intro s
    refine List.pairwise_cons.mpr ⟨?_, ih (s + 1)⟩
    intro x hx
    exact Nat.lt_of_succ_le (ge_of_mem_range' n (s + 1) x hx)

theorem assignItems_map_id (eid : Nat) :
    ∀ (l : List ItemIn) (s : Nat), (assignItems eid s l).map (fun i => i.id) = List.range' s l.length := by
  intro l
  induction l with
  | nil => intro s; simp [assignItems]
  | cons it rest ih =>
    intro s
    simp [assignItems, mkItem, List.range', ih (s + 1)]

theorem logWaste_ret_item_ids (st : Store) (now : Nat) (wd : WasteData) :
    (logWaste st now wd).2.items.map (fun i => i.id) = List.range' st.nextItemId wd.items.length := by
  show ((assignItems st.nextEntryId st.nextItemId wd.items).map toClientItem).map (fun i => i.id) =
    List.range' st.nextItemId wd.items.length
  rw [List.map_map]
  exact assignItems_map_id st.nextEntryId wd.items st.nextItemId

theorem deleteEntryById_nextEntryId (st : Store) (i : Nat) :
    (deleteEntryById st i).1.nextEntryId = st.nextEntryId := by
  unfold deleteEntryById
  split <;> rfl

theorem deleteEntryById_nextItemId (st : Store) (i : Nat) :
    (deleteEntryById st i).1.nextItemId = st.nextItemId := by
  unfold deleteEntryById
  split <;> rfl

theorem entryIdsAssigned_eq :
    ∀ (ops : List Op) (st : Store),
      entryIdsAssigned st ops = List.range' st.nextEntryId (countLogs ops) := by
  intro ops
  induction ops with
  | nil => intro st; rfl
  | cons op ops ih =>
    intro st
    cases op with
    | log now wd =>
      show (logWaste st now wd).2.id :: entryIdsAssigned (applyOp st (.log now wd)) ops = _
      rw [ih]
      have hc : (applyOp st (.log now wd)).nextEntryId = st.nextEntryId + 1 := rfl
      rw [hc]
      show st.nextEntryId :: _ = List.range' st.nextEntryId (countLogs ops + 1)
      simp [List.range']
    | del i =>
      show entryIdsAssigned (applyOp st (.del i)) ops = _
      rw [ih]
      have hc : (applyOp st (.del i)).nextEntryId = st.nextEntryId :=
        deleteEntryById_nextEntryId st i
      rw [hc]
      rfl

theorem itemIdsAssigned_eq :
    ∀ (ops : List Op) (st : Store),
      itemIdsAssigned st ops = List.range' st.nextItemId (totalItemsOf ops) := by
  intro ops
  induction ops with
  | nil => intro st; rfl
  | cons op ops ih =>
    intro st
    cases op with
    | log now wd =>
      show ((logWaste st now wd).2.items.map (fun i => i.id)) ++
          itemIdsAssigned (applyOp st (.log now wd)) ops = _
      rw [ih, logWaste_ret_item_ids]
      have hc : (applyOp st (.log now wd)).nextItemId = st.nextItemId + wd.items.length := rfl
      rw [hc]
      show _ = List.range' st.nextItemId (wd.items.length + totalItemsOf ops)
      exact range'_glue wd.items.length st.nextItemId (totalItemsOf ops)
    | del i =>
      show itemIdsAssigned (applyOp st (.del i)) ops = _
      rw [ih]
      have hc : (applyOp st (.del i)).nextItemId = st.nextItemId :=
        deleteEntryById_nextItemId st i
      rw [hc]
      rfl

/-- C3. `logWaste` always persists (and returns) a total recomputed
as the exact unrounded sum of the passed items' `estimatedValue` fields
(missing values counted as `0`).  The `wasteData` argument record
carries no total field at all, so any `totalEstimatedValue` the caller's
reconciled analysis computed cannot influence the stored row. -/
theorem claim_C3_total_recomputed (st : Store) (now : Nat) (wd : WasteData) :
    (logWaste st now wd).2.totalEstimatedValue = sumInVals wd.items ∧
    ∃ e, (logWaste st now wd).1.entries = st.entries ++ [e] ∧
      e.total_estimated_value = sumInVals wd.items := by
  exact ⟨rfl, ⟨_, rfl, rfl⟩⟩

/-- C5. Over any sequence of appends and deletions from the initial
store, the assigned entry ids are exactly `1, 2, …` in append order and
the assigned item ids are exactly `1, 2, …` in item order: both
sequences are strictly increasing, no id (in particular no deleted id)
is ever assigned twice, and the entry-id sequence depends only on the
number of appends while the item-id sequence depends only on the item
counts — the two are independent. -/
theorem claim_C5_id_invariants (ops : List Op) :
    entryIdsAssigned Store.init ops = List.range' 1 (countLogs ops) ∧
    itemIdsAssigned Store.init ops = List.range' 1 (totalItemsOf ops) ∧
    (entryIdsAssigned Store.init ops).Pairwise (fun a b => a < b) ∧
    (itemIdsAssigned Store.init ops).Pairwise (fun a b => a < b) := by
  refine ⟨entryIdsAssigned_eq ops Store.init, itemIdsAssigned_eq ops Store.init, ?_, ?_⟩
  · rw [entryIdsAssigned_eq ops Store.init]
    exact range'_pairwise_lt _ _
  · rw [itemIdsAssigned_eq ops Store.init]
    exact range'_pairwise_lt _ _

theorem eraseP_eq_filter_of_nodup :
    ∀ (l : List Entry) (i : Nat), (l.map (fun e => e.id)).Nodup → (∃ e ∈ l, e.id = i) →
      l.eraseP (fun e => e.id == i) = l.filter (fun e => e.id != i) := by
  intro l
  induction l with
  | nil => intro i _ hex; simp at hex
  | cons x xs ih =>
    intro i hnd hex
    rw [List.map_cons, List.nodup_cons] at hnd
    by_cases hx : x.id = i
    · have hall : ∀ y ∈ xs, (y.id != i) = true := by
        intro y hy
        have hne : y.id ≠ i := by
          intro hyi
          exact hnd.1 (hx ▸ hyi ▸ List.mem_map_of_mem (fun e => e.id) hy)
        simp [hne]
      simp only [List.eraseP_cons, List.filter_cons, hx]
      simp [List.filter_eq_self.mpr hall]
    · have hex' : ∃ e ∈ xs, e.id = i := by
        rcases hex with ⟨e, he, hei⟩
        rcases List.mem_cons.mp he with rfl | he'
        · exact absurd hei hx
        · exact ⟨e, he', hei⟩
      have hb : (x.id == i) = false := by simp [hx]
      simp only [List.eraseP_cons, List.filter_cons, hb]
      simp [hx, ih i hnd.2 hex']

/-- C6. `deleteEntryById` on an existing id succeeds and removes
exactly that entry and exactly the items referencing it, leaving every
other entry, every other item and both id counters unchanged; on a
missing id it fails and leaves the store untouched; and
`clearAllWasteData` resets entries, items and both id counters to the
initial state. -/
theorem claim_C6_delete_frame (st : Store) (i : Nat)
    (hnd : (st.entries.map (fun e => e.id)).Nodup) :
    ((∃ e ∈ st.entries, e.id = i) →
      (deleteEntryById st i).2.success = true ∧
      (deleteEntryById st i).1.entries = st.entries.filter (fun e => e.id != i) ∧
      (deleteEntryById st i).1.items = st.items.filter (fun it => it.waste_entry_id != i) ∧
      (deleteEntryById st i).1.nextEntryId = st.nextEntryId ∧
      (deleteEntryById st i).1.nextItemId = st.nextItemId) ∧
    ((∀ e ∈ st.entries, ¬ e.id = i) →
      (deleteEntryById st i).2.success = false ∧ (deleteEntryById st i).1 = st) ∧
    (clearAllWasteData st).1 = Store.init := by
  refine ⟨?_, ?_, rfl⟩
  · intro hex
    have hany : st.entries.any (fun e => e.id == i) = true := by
      rw [List.any_eq_true]
      rcases hex with ⟨e, he, hei⟩
      exact ⟨e, he, by simp [hei]⟩
    have hD : deleteEntryById st i =
        ({ st with
            entries := st.entries.eraseP (fun e => e.id == i)
            items := st.items.filter (fun it => it.waste_entry_id != i) }
        , ⟨true, "Entry #" ++ toString i ++ " deleted"⟩) := by
      unfold deleteEntryById
      rw [hany]
      rfl
    rw [hD]
    exact ⟨rfl, eraseP_eq_filter_of_nodup st.entries i hnd hex, rfl, rfl, rfl⟩
  · intro hnone
    have hany : st.entries.any (fun e => e.id == i) = false := by
      rw [List.any_eq_false]
      intro e he
      simp [hnone e he]
    have hD : deleteEntryById st i =
        (st, ⟨false, "Entry #" ++ toString i ++ " not found"⟩) := by
      unfold deleteEntryById
      rw [hany]
      rfl
    rw [hD]
    exact ⟨rfl, rfl⟩

/-! ### The hash index (claim C7) and the history reader (claim C10) -/

/-- C7 (amended). `findEntryByImageHash` returns a stored entry with
the queried hash whose timestamp is maximal among all entries carrying
that hash, together with its joined items; but among entries tying on
the most recent timestamp the *earliest-stored* one (the first in entry
order, i.e. the lowest id for stores built by appends) wins, not the one
with the highest id: every tied match sits strictly after the returned
entry in the filtered entry order. -/
theorem claim_C7_hash_lookup (st : Store) (h : String) (r : EntryWithItems)
    (hfind : findEntryByImageHash st h = some r) :
    r.entry ∈ st.entries ∧ r.entry.image_hash = h ∧
    (∀ e ∈ st.entries, e.image_hash = h → e.timestamp ≤ r.entry.timestamp) ∧
    (∃ l₁ l₂, st.entries.filter (fun e => e.image_hash == h) = l₁ ++ r.entry :: l₂ ∧
      ∀ e ∈ l₁, e.timestamp < r.entry.timestamp) ∧
    r.items = itemsFor st r.entry.id := by
  unfold findEntryByImageHash at hfind
  by_cases hh : h = ""
  · rw [if_pos hh] at hfind
    exact absurd hfind (by simp)
  · rw [if_neg hh, sortDescBy_head?] at hfind
    cases hm : firstMaxBy (fun e => e.timestamp)
        (st.entries.filter (fun e => e.image_hash == h)) with
    | none => rw [hm] at hfind; simp at hfind
    | some e =>
      rw [hm] at hfind
      have hre : (⟨e, itemsFor st e.id⟩ : EntryWithItems) = r := by simpa using hfind
      subst hre
      have hmemF := firstMaxBy_mem _ hm
      have hmemE := (List.mem_filter.mp hmemF).1
      have hhash : e.image_hash = h := by simpa using (List.mem_filter.mp hmemF).2
      refine ⟨hmemE, hhash, ?_, ?_, rfl⟩
      · intro e' he' hh'
        exact firstMaxBy_le _ hm e' (List.mem_filter.mpr ⟨he', by simp [hh']⟩)
      · rcases firstMaxBy_split _ hm with ⟨l₁, l₂, hs, hlt⟩
        exact ⟨l₁, l₂, hs, hlt⟩

theorem getWasteHistory_shape (st : Store) (opts : HistoryOptions) :
    ∃ L : List Entry,
      getWasteHistory st opts =
        ((sortDescBy (fun e => e.timestamp) L).take (opts.limit.getD 50)).map
          (fun e => ⟨e, itemsFor st e.id⟩) := by
  unfold getWasteHistory
  exact ⟨_, rfl⟩

/-- C10. A history request that supplies no limit returns at most 50
rows (the store's default limit), sorted by timestamp descending, and a
returned entry that owns no items carries an empty item list rather
than an error. -/
theorem claim_C10_history_defaults (st : Store) (sd ed : Option Nat) :
    (getWasteHistory st ⟨none, sd, ed⟩).length ≤ 50 ∧
    (getWasteHistory st ⟨none, sd, ed⟩).Pairwise
      (fun a b => b.entry.timestamp ≤ a.entry.timestamp) ∧
    (∀ r ∈ getWasteHistory st ⟨none, sd, ed⟩,
      (∀ it ∈ st.items, ¬ it.waste_entry_id = r.entry.id) → r.items = []) := by
  rcases getWasteHistory_shape st ⟨none, sd, ed⟩ with ⟨L, hL⟩
  have hlim : (HistoryOptions.mk none sd ed).limit.getD 50 = 50 := rfl
  rw [hL, hlim]
  refine ⟨?_, ?_, ?_⟩
  · rw [List.length_map]
    exact List.length_take_le _ _
  · exact List.pairwise_map.mpr
      ((sortDescBy_pairwise (fun e : Entry => e.timestamp) L).sublist
        (List.take_sublist 50 _))
  · intro r hr hnone
    rcases List.mem_map.mp hr with ⟨e, _, hfe⟩
    have hempty : st.items.filter (fun it => it.waste_entry_id == e.id) = [] := by
      rw [List.filter_eq_nil_iff]
      intro it hit
      have := hnone it hit
      simp only [← hfe] at this
      simp [this]
    rw [← hfe]
    show (st.items.filter (fun it => it.waste_entry_id == e.id)).map toClientItem = []
    rw [hempty]
    rfl

/-! ### Daily statistics (claim C8) -/

theorem addDaily_filter (m : List DailyBucket) (p : List Entry) (e : Entry)
    (h : ∀ d, m.filter (fun b => b.date == d) =
      if p.any (fun x => utcDay x.timestamp == d) then [bucketFor d p] else []) :
    ∀ d, (addDaily m e).filter (fun b => b.date == d) =
      if (p ++ [e]).any (fun x => utcDay x.timestamp == d) then [bucketFor d (p ++ [e])]
      else [] := by
  intro d
  have hany_app : (p ++ [e]).any (fun x => utcDay x.timestamp == d) =
      (p.any (fun x => utcDay x.timestamp == d) || (utcDay e.timestamp == d)) := by
    simp [List.any_append]
  by_cases hm : m.any (fun b => b.date == utcDay e.timestamp) = true
  · -- in-place update branch
    have hstep : addDaily m e =
        m.map (fun b =>
          if b.date == utcDay e.timestamp then
            { b with entries := b.entries + 1
                     total_value := b.total_value + e.total_estimated_value }
          else b) := by
      simp only [addDaily]
      rw [hm]
      rfl
    set upd : DailyBucket → DailyBucket := fun b =>
      if b.date == utcDay e.timestamp then
        { b with entries := b.entries + 1
                 total_value := b.total_value + e.total_estimated_value }
      else b with hupd
    have hdate : ∀ b, (upd b).date = b.date := by
      intro b
      rw [hupd]
      by_cases hb : b.date == utcDay e.timestamp <;> simp [hb]
    have hfm : (addDaily m e).filter (fun b => b.date == d) =
        (m.filter (fun b => b.date == d)).map upd := by
      rw [hstep, List.filter_map]
      congr 1
      apply List.filter_congr
      intro b _
      simp [Function.comp, hdate b]
    -- the bucket for the day of `e` must already exist, hence `p` has a matching entry
    have hp : p.any (fun x => utcDay x.timestamp == utcDay e.timestamp) = true := by
      by_contra hp
      have hnil := h (utcDay e.timestamp)
      rw [if_neg (by simpa using hp)] at hnil
      rcases List.any_eq_true.mp hm with ⟨b, hb, hbd⟩
      have : b ∈ m.filter (fun b => b.date == utcDay e.timestamp) :=
        List.mem_filter.mpr ⟨hb, hbd⟩
      rw [hnil] at this
      simp at this
    by_cases hd : utcDay e.timestamp = d
    · subst hd
      rw [hfm, h _, if_pos hp, hany_app, if_pos (by simp)]
      have hbf : bucketFor (utcDay e.timestamp) (p ++ [e]) =
          upd (bucketFor (utcDay e.timestamp) p) := by
        rw [hupd]
        simp [bucketFor, List.countP_append, List.filter_append, List.countP_cons,
          List.filter_cons]
      rw [hbf]
      rfl
    · have hskip : ∀ b ∈ m.filter (fun b => b.date == d), upd b = b := by
        intro b hb
        have hbd : b.date = d := by simpa using (List.mem_filter.mp hb).2
        have hne : ¬ b.date = utcDay e.timestamp := by
          rw [hbd]
          intro hx
          exact hd hx.symm
        rw [hupd]
        simp [hne]
      have hbf : bucketFor d (p ++ [e]) = bucketFor d p := by
        simp [bucketFor, List.countP_append, List.filter_append, List.countP_cons,
          List.filter_cons, hd]
      rw [hfm, List.map_congr_left hskip, List.map_id', h d, hany_app, hbf]
      simp [hd]
  · -- append branch
    rw [Bool.not_eq_true] at hm
    have hstep : addDaily m e =
        m ++ [⟨utcDay e.timestamp, 1, e.total_estimated_value⟩] := by
      simp only [addDaily]
      rw [hm]
      rfl
    -- no matching bucket, hence no matching processed entry
    have hp : p.any (fun x => utcDay x.timestamp == utcDay e.timestamp) = false := by
      by_contra hp
      rw [Bool.not_eq_false] at hp
      have hone := h (utcDay e.timestamp)
      rw [if_pos hp] at hone
      have : bucketFor (utcDay e.timestamp) p ∈
          m.filter (fun b => b.date == utcDay e.timestamp) := by
        rw [hone]; simp
      have hmem := (List.mem_filter.mp this).1
      have hdt := (List.mem_filter.mp this).2
      have hcontra : m.any (fun b => b.date == utcDay e.timestamp) = true :=
        List.any_eq_true.mpr ⟨bucketFor (utcDay e.timestamp) p, hmem, hdt⟩
      rw [hm] at hcontra
      exact absurd hcontra (by simp)
    by_cases hd : utcDay e.timestamp = d
    · subst hd
      have hmnil : m.filter (fun b => b.date == utcDay e.timestamp) = [] := by
        rw [h _, if_neg (by simp [hp])]
      rw [hstep, List.filter_append, hmnil, hany_app, if_pos (by simp)]
      have hcnt : p.countP (fun x => utcDay x.timestamp == utcDay e.timestamp) = 0 := by
        rw [List.countP_eq_zero]
        intro x hx
        have := List.any_eq_false.mp hp x hx
        simpa using this
      have hfe : p.filter (fun x => utcDay x.timestamp == utcDay e.timestamp) = [] := by
        rw [List.filter_eq_nil_iff]
        intro x hx
        have := List.any_eq_false.mp hp x hx
        simpa using this
      simp [bucketFor, List.countP_append, List.filter_append, List.countP_cons,
        List.filter_cons, hcnt, hfe]
    · have hbf : bucketFor d (p ++ [e]) = bucketFor d p := by
        simp [bucketFor, List.countP_append, List.filter_append, List.countP_cons,
          List.filter_cons, hd]
      rw [hstep, List.filter_append, hany_app, hbf]
      have : ([(⟨utcDay e.timestamp, 1, e.total_estimated_value⟩ : DailyBucket)]).filter
          (fun b => b.date == d) = [] := by
        simp [hd]
      rw [this, List.append_nil, h d]
      simp [hd]

theorem foldl_addDaily_inv :
    ∀ (l : List Entry) (m : List DailyBucket) (p : List Entry),
      (∀ d, m.filter (fun b => b.date == d) =
        if p.any (fun x => utcDay x.timestamp == d) then [bucketFor d p] else []) →
      ∀ d, (l.foldl addDaily m).filter (fun b => b.date == d) =
        if (p ++ l).any (fun x => utcDay x.timestamp == d) then [bucketFor d (p ++ l)]
        else [] := by
  intro l
  induction l with
  | nil => intro m p h d; simpa using h d
  | cons e l ih =>
    intro m p h d
    have hrec := ih (addDaily m e) (p ++ [e]) (addDaily_filter m p e h) d
    rw [show p ++ e :: l = (p ++ [e]) ++ l by simp]
    exact hrec

theorem dailyBuckets_filter (cutoff : Nat) (entries : List Entry) (d : Nat) :
    (dailyBuckets cutoff entries).filter (fun b => b.date == d) =
      if (entries.filter (fun e => cutoff ≤ e.timestamp)).any
          (fun e => utcDay e.timestamp == d)
      then [bucketFor d (entries.filter (fun e => cutoff ≤ e.timestamp))]
      else [] := by
  have hbase : ∀ d, ([] : List DailyBucket).filter (fun b => b.date == d) =
      if ([] : List Entry).any (fun x => utcDay x.timestamp == d) then [bucketFor d []]
      else [] := by
    simp
  have h := foldl_addDaily_inv (entries.filter (fun e => cutoff ≤ e.timestamp)) [] [] hbase d
  rw [List.nil_append] at h
  have hperm := (sortDescBy_perm (fun b : DailyBucket => b.date)
    ((entries.filter (fun e => cutoff ≤ e.timestamp)).foldl addDaily [])).filter
    (fun b => b.date == d)
  unfold dailyBuckets
  by_cases hany : (entries.filter (fun e => cutoff ≤ e.timestamp)).any
      (fun e => utcDay e.timestamp == d) = true
  · rw [if_pos hany]
    rw [if_pos hany] at h
    rw [h] at hperm
    exact List.perm_singleton.mp hperm
  · rw [if_neg hany]
    rw [if_neg hany] at h
    rw [h] at hperm
    exact hperm.eq_nil

/-- C8 (amended). The `dailyStats` buckets group the entries of the
trailing 30 days (boundary timestamp `now − 30d` included, older
entries excluded) by the **UTC** calendar date of their timestamp — the
date `toISOString` yields, not the entry's local date — each bucket
holding the entry count and summed value of exactly the included
entries of its day, and the buckets are sorted by date descending. -/
theorem claim_C8_daily_stats (st : Store) (now : Nat) :
    ((getWasteStats st now).dailyStats).Pairwise (fun a b => b.date ≤ a.date) ∧
    (∀ d, ((getWasteStats st now).dailyStats).filter (fun b => b.date == d) =
      if (st.entries.filter (fun e => now - thirtyDaysMs ≤ e.timestamp)).any
          (fun e => utcDay e.timestamp == d)
      then [bucketFor d (st.entries.filter (fun e => now - thirtyDaysMs ≤ e.timestamp))]
      else []) := by
  constructor
  · show (dailyBuckets (now - thirtyDaysMs) st.entries).Pairwise _
    unfold dailyBuckets
    exact sortDescBy_pairwise _ _
  · intro d
    exact dailyBuckets_filter (now - thirtyDaysMs) st.entries d

/-- C8 (counterexample). The claim says buckets use the entry's
*local* date.  For the entry `e8`, logged at 01:00 UTC, the code buckets
it under UTC day 0, while its local calendar date in a UTC−5 environment
is day −1: the code groups by the UTC date, not the local date. -/
theorem claim_C8_counterexample :
    (dailyBuckets 0 [e8]).map (fun b => (b.date : ℤ)) = [0] ∧
    specLocalDay (-18000000) e8.timestamp = -1 ∧ (0 : ℤ) ≠ -1 := by
  refine ⟨by decide, by decide, by decide⟩

/-! ### The suggestion engine (claim C9) -/

theorem portionSugs_type (t : List TopItem) : ∀ s ∈ portionSugs t, s.type = "portion_adjustment" := by
  intro s hs
  cases t with
  | nil => simp [portionSugs] at hs
  | cons hd tl =>
    have hP : portionSugs (hd :: tl) =
        if hd.frequency ≥ 5 then [⟨"portion_adjustment", "high", hd.total_value⟩] else [] := rfl
    rw [hP] at hs
    by_cases h : hd.frequency ≥ 5
    · rw [if_pos h] at hs
      rcases List.mem_singleton.mp hs with rfl
      rfl
    · rw [if_neg h] at hs
      simp at hs

theorem categorySugs_type (c : List CategoryStat) : ∀ s ∈ categorySugs c, s.type = "menu_change" := by
  intro s hs
  rcases List.mem_filterMap.mp hs with ⟨a, _, hfa⟩
  split at hfa
  · rcases Option.some_inj.mp hfa with rfl
    rfl
  · exact absurd hfa (by simp)

theorem trendSugs_eq (daily : List DailyBucket) :
    trendSugs daily =
      if recentAvg3 daily > bucketsAvg daily * (6/5) ∧ bucketsAvg daily > 0 then
        [⟨"trend_alert", "high", (recentAvg3 daily / bucketsAvg daily - 1) * 100⟩]
      else [] := by
  unfold trendSugs
  by_cases hlen : daily.length > 0
  · rw [if_pos hlen]
  · rw [if_neg hlen]
    have hnil : daily = [] := List.length_eq_zero.mp (by omega)
    subst hnil
    have hz : bucketsAvg ([] : List DailyBucket) = 0 := by simp [bucketsAvg]
    rw [if_neg]
    intro hcond
    rw [hz] at hcond
    exact absurd hcond.2 (lt_irrefl 0)

theorem getSuggestions_shape (st : Store) (now : Nat) :
    getSuggestions st now = sortDescBy (fun s => priorityOrder s.priority)
      (portionSugs (getWasteStats st now).topItems ++
        categorySugs (getWasteStats st now).categoryStats ++
        trendSugs (getWasteStats st now).dailyStats ++ [bestPracticeSug]) := rfl

/-- C9. The aggregate suggestion engine emits the trend alert
**iff** the mean of the 3 most recent daily buckets strictly exceeds
1.2× the mean over all daily buckets and the all-time daily mean is
positive; and every emitted trend alert carries the percentage increase
`(recent/overall − 1) · 100` as its numeric payload. -/
theorem claim_C9_trend_alert (st : Store) (now : Nat) :
    ((getSuggestions st now).any (fun s => s.type == "trend_alert") = true ↔
      (recentAvg3 ((getWasteStats st now).dailyStats) >
          bucketsAvg ((getWasteStats st now).dailyStats) * (6/5) ∧
        bucketsAvg ((getWasteStats st now).dailyStats) > 0)) ∧
    (∀ s ∈ getSuggestions st now, s.type = "trend_alert" →
      s.amount = (recentAvg3 ((getWasteStats st now).dailyStats) /
          bucketsAvg ((getWasteStats st now).dailyStats) - 1) * 100) := by
  have hmem : ∀ s : Suggestion, s ∈ getSuggestions st now ↔
      s ∈ portionSugs (getWasteStats st now).topItems ++
        categorySugs (getWasteStats st now).categoryStats ++
        trendSugs (getWasteStats st now).dailyStats ++ [bestPracticeSug] := by
    intro s
    rw [getSuggestions_shape]
    exact (sortDescBy_perm _ _).mem_iff
  constructor
  · rw [List.any_eq_true]
    constructor
    · rintro ⟨s, hs, hty⟩
      have hty' : s.type = "trend_alert" := by simpa using hty
      have hs' := (hmem s).mp hs
      rcases List.mem_append.mp hs' with hs'' | hbp
      · rcases List.mem_append.mp hs'' with hs''' | hC
        · rcases List.mem_append.mp hs''' with hA | hB
          · exact absurd (portionSugs_type _ s hA ▸ hty') (by decide)
          · exact absurd (categorySugs_type _ s hB ▸ hty') (by decide)
        · rw [trendSugs_eq] at hC
          by_cases hc : recentAvg3 ((getWasteStats st now).dailyStats) >
              bucketsAvg ((getWasteStats st now).dailyStats) * (6/5) ∧
              bucketsAvg ((getWasteStats st now).dailyStats) > 0
          · exact hc
          · rw [if_neg hc] at hC
            simp at hC
      · rcases List.mem_singleton.mp hbp with rfl
        exact absurd hty' (by decide)
    · intro hc
      refine ⟨⟨"trend_alert", "high",
        (recentAvg3 ((getWasteStats st now).dailyStats) /
          bucketsAvg ((getWasteStats st now).dailyStats) - 1) * 100⟩, ?_, by simp⟩
      rw [hmem]
      refine List.mem_append.mpr (Or.inl (List.mem_append.mpr (Or.inr ?_)))
      rw [trendSugs_eq, if_pos hc]
      simp
  · intro s hs hty
    have hs' := (hmem s).mp hs
    rcases List.mem_append.mp hs' with hs'' | hbp
    · rcases List.mem_append.mp hs'' with hs''' | hC
      · rcases List.mem_append.mp hs''' with hA | hB
        · exact absurd (portionSugs_type _ s hA ▸ hty) (by decide)
        · exact absurd (categorySugs_type _ s hB ▸ hty) (by decide)
      · rw [trendSugs_eq] at hC
        by_cases hc : recentAvg3 ((getWasteStats st now).dailyStats) >
            bucketsAvg ((getWasteStats st now).dailyStats) * (6/5) ∧
            bucketsAvg ((getWasteStats st now).dailyStats) > 0
        · rw [if_pos hc] at hC
          rcases List.mem_singleton.mp hC with rfl
          rfl
        · rw [if_neg hc] at hC
          simp at hC
    · rcases List.mem_singleton.mp hbp with rfl
      exact absurd hty (by decide)

/-! ### Reconciliation and ingest (claims C1, C2, C4) -/

theorem consistencyMsg_ne (i : Nat) : consistencyMsg i ≠ "" := by
  intro hc
  have hd := congrArg String.data hc
  simp [consistencyMsg, String.data_append] at hd

theorem jsStr_some_ne (s d : String) (hs : ¬ s = "") : jsStr (some s) d = s := by
  simp [jsStr, hs]

theorem reconcile_none (a : Analysis) :
    reconcile none a = ({ a with totalEstimatedValue := round10 (sumInVals a.items) }, none, "") :=
  rfl

theorem reconcile_some_pos (prev : EntryWithItems) (a : Analysis)
    (hpos : 0 < prev.entry.total_estimated_value) :
    reconcile (some prev) a =
      ({ a with items := alignWith prev.items a.items
                totalEstimatedValue := prev.entry.total_estimated_value }
      , jsId (some prev.entry.id), consistencyMsg prev.entry.id) := by
  simp only [reconcile]
  rw [if_pos hpos]

/-- C1 (amended). When an ingest matches a prior entry with a
positive total: the reconciled *analysis* total is set to the prior
total exactly and the persisted entry's `consistency_note` is non-empty
and cites the prior entry's id; but the persisted entry's
`total_estimated_value` is recomputed by `logWaste` as the sum of the
*aligned items'* values (so it equals the prior total only when the
aligned values sum to it, e.g. when the fresh items match the prior
items name for name). -/
theorem claim_C1_duplicate_total (st : Store) (now : Nat) (h path : String) (a : Analysis)
    (prev : EntryWithItems) (hfind : findEntryByImageHash st h = some prev)
    (hpos : 0 < prev.entry.total_estimated_value) :
    (ingest st now h path a).2.analysis.totalEstimatedValue = prev.entry.total_estimated_value ∧
    ∃ e, (ingest st now h path a).1.entries = st.entries ++ [e] ∧
      e.total_estimated_value = sumInVals (alignWith prev.items a.items) ∧
      e.consistency_note = consistencyMsg prev.entry.id ∧
      e.consistency_note ≠ "" ∧
      ∃ s₁ s₂, e.consistency_note = s₁ ++ toString prev.entry.id ++ s₂ := by
  have hrec := reconcile_some_pos prev a hpos
  constructor
  · show (reconcile (findEntryByImageHash st h) a).1.totalEstimatedValue = _
    rw [hfind, hrec]
  · refine ⟨_, rfl, ?_, ?_, ?_, ?_⟩
    · show sumInVals (reconcile (findEntryByImageHash st h) a).1.items = _
      rw [hfind, hrec]
    · show jsStr (some (reconcile (findEntryByImageHash st h) a).2.2) "" = _
      rw [hfind, hrec]
      exact jsStr_some_ne _ _ (consistencyMsg_ne prev.entry.id)
    · show jsStr (some (reconcile (findEntryByImageHash st h) a).2.2) "" ≠ ""
      rw [hfind, hrec]
      rw [jsStr_some_ne _ _ (consistencyMsg_ne prev.entry.id)]
      exact consistencyMsg_ne prev.entry.id
    · refine ⟨"Values aligned with duplicate of entry #", " for consistency.", ?_⟩
      show jsStr (some (reconcile (findEntryByImageHash st h) a).2.2) "" = _
      rw [hfind, hrec]
      rw [jsStr_some_ne _ _ (consistencyMsg_ne prev.entry.id)]
      rfl

theorem assignItems_map_value (eid : Nat) :
    ∀ (l : List ItemIn) (s : Nat),
      (assignItems eid s l).map (fun i => i.estimated_value) =
        l.map (fun it => it.estimatedValue.getD 0) := by
  intro l
  induction l with
  | nil => intro s; simp [assignItems]
  | cons it rest ih =>
    intro s
    simp [assignItems, mkItem, ih (s + 1)]

/-- C2 (amended). When an ingest has no prior hash match: the
reconciled *analysis* total is the fresh sum rounded to the nearest
$0.10, the fresh item values are persisted unchanged (absent values as
`0`), but the persisted entry's `total_estimated_value` is the exact
*unrounded* sum, recomputed by `logWaste`. -/
theorem claim_C2_fresh_ingest (st : Store) (now : Nat) (h path : String) (a : Analysis)
    (hfind : findEntryByImageHash st h = none) :
    (ingest st now h path a).2.analysis.totalEstimatedValue = round10 (sumInVals a.items) ∧
    (∃ e, (ingest st now h path a).1.entries = st.entries ++ [e] ∧
      e.total_estimated_value = sumInVals a.items) ∧
    (ingest st now h path a).2.wasteEntry.items.map (fun ci => ci.estimatedValue) =
      a.items.map (fun it => it.estimatedValue.getD 0) := by
  refine ⟨?_, ⟨_, rfl, ?_⟩, ?_⟩
  · show (reconcile (findEntryByImageHash st h) a).1.totalEstimatedValue = _
    rw [hfind, reconcile_none]
  · show sumInVals (reconcile (findEntryByImageHash st h) a).1.items = _
    rw [hfind, reconcile_none]
  · show ((assignItems st.nextEntryId st.nextItemId
        (reconcile (findEntryByImageHash st h) a).1.items).map toClientItem).map
          (fun ci => ci.estimatedValue) = _
    rw [hfind, reconcile_none, List.map_map]
    exact assignItems_map_value st.nextEntryId a.items st.nextItemId

theorem find_none_filter (st : Store) (h : String) (hh : ¬ h = "")
    (hfind : findEntryByImageHash st h = none) :
    st.entries.filter (fun e => e.image_hash == h) = [] := by
  unfold findEntryByImageHash at hfind
  rw [if_neg hh, sortDescBy_head?] at hfind
  cases hm : firstMaxBy (fun e => e.timestamp)
      (st.entries.filter (fun e => e.image_hash == h)) with
  | none => exact (firstMaxBy_eq_none _ _).mp hm
  | some e => rw [hm] at hfind; simp at hfind

theorem assignItems_wei (eid : Nat) :
    ∀ (l : List ItemIn) (s : Nat), ∀ i ∈ assignItems eid s l, i.waste_entry_id = eid := by
  intro l
  induction l with
  | nil => intro s i hi; simp [assignItems] at hi
  | cons it rest ih =>
    intro s i hi
    rcases List.mem_cons.mp hi with rfl | hi
    · rfl
    · exact ih (s + 1) i hi

theorem assignItems_length (eid : Nat) :
    ∀ (l : List ItemIn) (s : Nat), (assignItems eid s l).length = l.length := by
  intro l
  induction l with
  | nil => intro s; rfl
  | cons it rest ih => intro s; simp [assignItems, ih (s + 1)]

theorem sumInVals_pos_ne_nil (l : List ItemIn) (hpos : 0 < sumInVals l) : l ≠ [] := by
  rintro rfl
  simp [sumInVals] at hpos

/-- After appending an entry with hash `h` to a store with no entry
matching `h`, the hash lookup finds exactly the appended entry with its
newly saved items. -/
theorem find_after_append (st : Store) (now : Nat) (wd : WasteData) (h : String)
    (hh : ¬ h = "")
    (hfilter : st.entries.filter (fun e => e.image_hash == h) = [])
    (hwdh : wd.imageHash = some h)
    (hfree : ∀ it ∈ st.items, ¬ it.waste_entry_id = st.nextEntryId) :
    findEntryByImageHash (logWaste st now wd).1 h =
      some ⟨logEntryOf st now wd,
        (assignItems st.nextEntryId st.nextItemId wd.items).map toClientItem⟩ := by
  have hEhash : (logEntryOf st now wd).image_hash = h := by
    show jsStr wd.imageHash "" = h
    rw [hwdh]
    exact jsStr_some_ne h "" hh
  have hfl : (logWaste st now wd).1.entries.filter (fun e => e.image_hash == h) =
      [logEntryOf st now wd] := by
    show (st.entries ++ [logEntryOf st now wd]).filter (fun e => e.image_hash == h) = _
    rw [List.filter_append, hfilter]
    simp [hEhash]
  have hitems : itemsFor (logWaste st now wd).1 (logEntryOf st now wd).id =
      (assignItems st.nextEntryId st.nextItemId wd.items).map toClientItem := by
    show ((st.items ++ assignItems st.nextEntryId st.nextItemId wd.items).filter
        (fun it => it.waste_entry_id == st.nextEntryId)).map toClientItem = _
    rw [List.filter_append]
    have h1 : st.items.filter (fun it => it.waste_entry_id == st.nextEntryId) = [] := by
      rw [List.filter_eq_nil_iff]
      intro it hit
      simpa using hfree it hit
    have h2 : (assignItems st.nextEntryId st.nextItemId wd.items).filter
        (fun it => it.waste_entry_id == st.nextEntryId) =
        assignItems st.nextEntryId st.nextItemId wd.items := by
      rw [List.filter_eq_self]
      intro i hi
      simp [assignItems_wei st.nextEntryId wd.items st.nextItemId i hi]
    rw [h1, h2, List.nil_append]
  unfold findEntryByImageHash
  rw [if_neg hh, hfl]
  show some (⟨logEntryOf st now wd,
    itemsFor (logWaste st now wd).1 (logEntryOf st now wd).id⟩ : EntryWithItems) = _
  rw [hitems]

theorem assignItems_proj (eid : Nat) :
    ∀ (l : List ItemIn) (s : Nat),
      ((assignItems eid s l).map toClientItem).map (fun c => (c.name, c.estimatedValue)) =
        l.map (fun it => (it.name, it.estimatedValue.getD 0)) := by
  intro l
  induction l with
  | nil => intro s; simp [assignItems]
  | cons it rest ih =>
    intro s
    simp [assignItems, mkItem, toClientItem, ih (s + 1)]

theorem lookupPrev_self :
    ∀ (l : List ItemIn) (cl : List ClientItem),
      cl.map (fun c => (c.name, c.estimatedValue)) =
        l.map (fun it => (it.name, it.estimatedValue.getD 0)) →
      (l.map (fun it => lowerStr it.name)).Nodup →
      ∀ it ∈ l, ∃ c, lookupPrev cl (lowerStr it.name) = some c ∧
        c.estimatedValue = it.estimatedValue.getD 0 := by
  intro l
  induction l with
  | nil => intro cl _ _ it hit; simp at hit
  | cons it0 l' ih =>
    intro cl hproj hnd it hit
    cases cl with
    | nil => simp at hproj
    | cons c0 cl' =>
      rw [List.map_cons, List.map_cons] at hproj
      injection hproj with hhead htail
      have hn0 : c0.name = it0.name := congrArg Prod.fst hhead
      have hv0 : c0.estimatedValue = it0.estimatedValue.getD 0 := congrArg Prod.snd hhead
      rw [List.map_cons] at hnd
      have hnotin := (List.nodup_cons.mp hnd).1
      have hnd' := (List.nodup_cons.mp hnd).2
      have hnames : cl'.map (fun c => c.name) = l'.map (fun it => it.name) := by
        have hft := congrArg (List.map Prod.fst) htail
        simpa [List.map_map, Function.comp] using hft
      rcases List.mem_cons.mp hit with rfl | hit'
      · refine ⟨c0, ?_, hv0⟩
        unfold lookupPrev
        have hfl : (c0 :: cl').filter (fun p => lowerStr p.name == lowerStr it.name) = [c0] := by
          rw [List.filter_cons]
          have hc0 : (lowerStr c0.name == lowerStr it.name) = true := by simp [hn0]
          rw [hc0]
          have hrest : cl'.filter (fun p => lowerStr p.name == lowerStr it.name) = [] := by
            rw [List.filter_eq_nil_iff]
            intro c hc hbeq
            have hcn : c.name ∈ l'.map (fun it => it.name) := by
              rw [← hnames]
              exact List.mem_map_of_mem _ hc
            rcases List.mem_map.mp hcn with ⟨it', hit'', hname⟩
            apply hnotin
            have hl : lowerStr it'.name = lowerStr it.name := by
              rw [hname]
              simpa using hbeq
            rw [← hl]
            exact List.mem_map_of_mem _ hit''
          simp [hrest]
        rw [hfl]
        rfl
      · have hkey : lowerStr it.name ∈ l'.map (fun x => lowerStr x.name) :=
          List.mem_map_of_mem _ hit'
        have hc0ne : (lowerStr c0.name == lowerStr it.name) = false := by
          rw [hn0]
          by_contra hcon
          rw [Bool.not_eq_false] at hcon
          have : lowerStr it0.name = lowerStr it.name := by simpa using hcon
          exact hnotin (this ▸ hkey)
        have hstep : lookupPrev (c0 :: cl') (lowerStr it.name) =
            lookupPrev cl' (lowerStr it.name) := by
          unfold lookupPrev
          rw [List.filter_cons, hc0ne]
          rfl
        rw [hstep]
        exact ih cl' htail hnd' it hit'

theorem alignWith_self (l : List ItemIn) (cl : List ClientItem)
    (hproj : cl.map (fun c => (c.name, c.estimatedValue)) =
      l.map (fun it => (it.name, it.estimatedValue.getD 0)))
    (hnd : (l.map (fun it => lowerStr it.name)).Nodup)
    (hne : cl.length > 0) :
    sumInVals (alignWith cl l) = sumInVals l := by
  unfold alignWith
  rw [if_pos hne]
  unfold sumInVals
  rw [List.map_map]
  apply congrArg List.sum
  apply List.map_congr_left
  intro it hit
  rcases lookupPrev_self l cl hproj hnd it hit with ⟨c, hlook, hval⟩
  show (alignOne cl it).estimatedValue.getD 0 = it.estimatedValue.getD 0
  unfold alignOne
  rw [hlook]
  simp [hval]

/-- C4 (amended). Uploading the same image twice (analyses held
fixed) yields two entries with distinct ids; *provided* the analysis's
items have pairwise-distinct case-insensitive names and a positive value
sum, both entries persist an identical `totalEstimatedValue` and the
second entry carries a non-empty `consistencyNote`.  (With duplicate
lowercased names the by-name alignment map collapses them and the second
total can differ; with a zero first total no consistency note is
attached.) -/
theorem claim_C4_double_upload (st : Store) (n1 n2 : Nat) (h p1 p2 : String) (a : Analysis)
    (hh : ¬ h = "")
    (hfind : findEntryByImageHash st h = none)
    (hfree : ∀ it ∈ st.items, ¬ it.waste_entry_id = st.nextEntryId)
    (hnd : (a.items.map (fun it => lowerStr it.name)).Nodup)
    (hpos : 0 < sumInVals a.items) :
    (ingest st n1 h p1 a).2.wasteEntry.id ≠
      (ingest (ingest st n1 h p1 a).1 n2 h p2 a).2.wasteEntry.id ∧
    (ingest (ingest st n1 h p1 a).1 n2 h p2 a).2.wasteEntry.totalEstimatedValue =
      (ingest st n1 h p1 a).2.wasteEntry.totalEstimatedValue ∧
    ∃ e, (ingest (ingest st n1 h p1 a).1 n2 h p2 a).1.entries =
      (ingest st n1 h p1 a).1.entries ++ [e] ∧ ¬ e.consistency_note = "" := by
  have hwd1items :
      (ingestWD n1 h p1 a (reconcile (findEntryByImageHash st h) a)).items = a.items := by
    show (reconcile (findEntryByImageHash st h) a).1.items = a.items
    rw [hfind, reconcile_none]
  have hfilter := find_none_filter st h hh hfind
  have hfind2 := find_after_append st n1
    (ingestWD n1 h p1 a (reconcile (findEntryByImageHash st h) a)) h hh hfilter rfl hfree
  rw [hwd1items] at hfind2
  have hE1tot :
      (logEntryOf st n1 (ingestWD n1 h p1 a
        (reconcile (findEntryByImageHash st h) a))).total_estimated_value =
      sumInVals a.items := by
    show sumInVals (ingestWD n1 h p1 a (reconcile (findEntryByImageHash st h) a)).items = _
    rw [hwd1items]
  have hpos1 : 0 < ((⟨logEntryOf st n1 (ingestWD n1 h p1 a
      (reconcile (findEntryByImageHash st h) a)),
      (assignItems st.nextEntryId st.nextItemId a.items).map toClientItem⟩ :
      EntryWithItems)).entry.total_estimated_value := by
    show 0 < (logEntryOf st n1 (ingestWD n1 h p1 a
      (reconcile (findEntryByImageHash st h) a))).total_estimated_value
    rw [hE1tot]
    exact hpos
  have htot1 : (ingest st n1 h p1 a).2.wasteEntry.totalEstimatedValue = sumInVals a.items := by
    show sumInVals (ingestWD n1 h p1 a (reconcile (findEntryByImageHash st h) a)).items = _
    rw [hwd1items]
  have hrec2 : (reconcile (findEntryByImageHash (ingest st n1 h p1 a).1 h) a).1.items =
      alignWith ((assignItems st.nextEntryId st.nextItemId a.items).map toClientItem)
        a.items := by
    rw [show findEntryByImageHash (ingest st n1 h p1 a).1 h =
        findEntryByImageHash (logWaste st n1 (ingestWD n1 h p1 a
          (reconcile (findEntryByImageHash st h) a))).1 h from rfl]
    rw [hfind2, reconcile_some_pos _ _ hpos1]
  have htot2 : (ingest (ingest st n1 h p1 a).1 n2 h p2 a).2.wasteEntry.totalEstimatedValue =
      sumInVals (alignWith
        ((assignItems st.nextEntryId st.nextItemId a.items).map toClientItem) a.items) := by
    show sumInVals (reconcile (findEntryByImageHash (ingest st n1 h p1 a).1 h) a).1.items = _
    rw [hrec2]
  have hlen : ((assignItems st.nextEntryId st.nextItemId a.items).map toClientItem).length > 0 := by
    rw [List.length_map, assignItems_length]
    exact List.length_pos.mpr (sumInVals_pos_ne_nil a.items hpos)
  have halign := alignWith_self a.items
    ((assignItems st.nextEntryId st.nextItemId a.items).map toClientItem)
    (assignItems_proj st.nextEntryId a.items st.nextItemId) hnd hlen
  refine ⟨?_, ?_, ?_⟩
  · show st.nextEntryId ≠ (ingest st n1 h p1 a).1.nextEntryId
    show st.nextEntryId ≠ st.nextEntryId + 1
    omega
  · rw [htot2, halign, htot1]
  · refine ⟨_, rfl, ?_⟩
    show jsStr (some (reconcile (findEntryByImageHash (ingest st n1 h p1 a).1 h) a).2.2) "" ≠ ""
    rw [show findEntryByImageHash (ingest st n1 h p1 a).1 h =
        findEntryByImageHash (logWaste st n1 (ingestWD n1 h p1 a
          (reconcile (findEntryByImageHash st h) a))).1 h from rfl]
    rw [hfind2, reconcile_some_pos _ _ hpos1]
    rw [jsStr_some_ne _ _ (consistencyMsg_ne _)]
    exact consistencyMsg_ne _

/-! ### Counterexamples and witnesses at concrete inputs -/

/-- C1 (counterexample).  The prior entry has total $5 > 0, but ingesting
a fresh analysis naming a different item ("banana", $3) persists a new
entry whose total is $3 — the recomputed sum of the aligned items — not
the prior total $5. -/
theorem claim_C1_counterexample :
    (findEntryByImageHash stC1 "h").map (fun p => p.entry.total_estimated_value) = some 5 ∧
    (0:ℚ) < 5 ∧
    (ingest stC1 0 "h" "p2" aC1).2.wasteEntry.totalEstimatedValue = 3 ∧
    (∃ e, (ingest stC1 0 "h" "p2" aC1).1.entries = stC1.entries ++ [e] ∧
      e.total_estimated_value = 3) ∧
    (3:ℚ) ≠ 5 := by
  refine ⟨rfl, by norm_num, ?_, ⟨_, rfl, ?_⟩, by norm_num⟩
  · show sumInVals (reconcile (findEntryByImageHash stC1 "h") aC1).1.items = 3
    rw [show findEntryByImageHash stC1 "h" = some prevC1 from rfl]
    rw [reconcile_some_pos prevC1 aC1 (by norm_num [prevC1])]
    simp +decide [alignWith, prevC1, aC1, alignOne, lookupPrev, lowerStr, sumInVals]
  · show sumInVals (reconcile (findEntryByImageHash stC1 "h") aC1).1.items = 3
    rw [show findEntryByImageHash stC1 "h" = some prevC1 from rfl]
    rw [reconcile_some_pos prevC1 aC1 (by norm_num [prevC1])]
    simp +decide [alignWith, prevC1, aC1, alignOne, lookupPrev, lowerStr, sumInVals]

/-- C1 (witness). -/
theorem claim_C1_witness :
    (ingest stC1 0 "h" "p2" aC1).2.analysis.totalEstimatedValue = 5 :=
  (claim_C1_duplicate_total stC1 0 "h" "p2" aC1 prevC1 rfl (by norm_num [prevC1])).1

/-- C2 (counterexample).  With no prior match, items summing to $7.03
persist an entry whose total is the exact sum $7.03, not the rounded
$7.00 the claim asserts. -/
theorem claim_C2_counterexample :
    findEntryByImageHash Store.init "h" = none ∧
    (ingest Store.init 0 "h" "p" aC2).2.wasteEntry.totalEstimatedValue = 703/100 ∧
    (∃ e, (ingest Store.init 0 "h" "p" aC2).1.entries = Store.init.entries ++ [e] ∧
      e.total_estimated_value = 703/100) ∧
    round10 (sumInVals aC2.items) = 7 ∧ ((703:ℚ)/100) ≠ 7 := by
  refine ⟨rfl, ?_, ⟨_, rfl, ?_⟩, ?_, by norm_num⟩
  · show sumInVals (reconcile (findEntryByImageHash Store.init "h") aC2).1.items = 703/100
    rw [show findEntryByImageHash Store.init "h" = none from rfl, reconcile_none]
    norm_num [aC2, sumInVals]
  · show sumInVals (reconcile (findEntryByImageHash Store.init "h") aC2).1.items = 703/100
    rw [show findEntryByImageHash Store.init "h" = none from rfl, reconcile_none]
    norm_num [aC2, sumInVals]
  · norm_num [aC2, sumInVals, round10, jsRound]

/-- C2 (witness). -/
theorem claim_C2_witness :
    (ingest Store.init 0 "h" "p" aW2).2.analysis.totalEstimatedValue =
      round10 (sumInVals aW2.items) :=
  (claim_C2_fresh_ingest Store.init 0 "h" "p" aW2 rfl).1

/-- C4 (counterexample).  Uploading the same image twice with an
analysis holding two items whose names collide case-insensitively
("Apple" $2, "apple" $3): the first entry persists total $5, but the
by-name alignment maps both fresh items to the *last* prior "apple"
($3), so the second entry persists total $6 — the totals are not
identical. -/
theorem claim_C4_counterexample :
    findEntryByImageHash Store.init "h" = none ∧
    (ingest Store.init 0 "h" "p" aC4).2.wasteEntry.totalEstimatedValue = 5 ∧
    (ingest (ingest Store.init 0 "h" "p" aC4).1 1 "h" "q" aC4).2.wasteEntry.totalEstimatedValue
      = 6 ∧
    (5:ℚ) ≠ 6 := by
  have hwd1items :
      (ingestWD 0 "h" "p" aC4 (reconcile (findEntryByImageHash Store.init "h") aC4)).items =
        aC4.items := rfl
  have hfilter : Store.init.entries.filter (fun e => e.image_hash == "h") = [] := rfl
  have hfree : ∀ it ∈ Store.init.items, ¬ it.waste_entry_id = Store.init.nextEntryId := by
    intro it hit
    simp [Store.init] at hit
  have hfind2 := find_after_append Store.init 0
    (ingestWD 0 "h" "p" aC4 (reconcile (findEntryByImageHash Store.init "h") aC4)) "h"
    (by decide) hfilter rfl hfree
  rw [hwd1items] at hfind2
  have hpos1 : 0 < ((⟨logEntryOf Store.init 0 (ingestWD 0 "h" "p" aC4
      (reconcile (findEntryByImageHash Store.init "h") aC4)),
      (assignItems Store.init.nextEntryId Store.init.nextItemId aC4.items).map toClientItem⟩ :
      EntryWithItems)).entry.total_estimated_value := by
    show 0 < sumInVals (ingestWD 0 "h" "p" aC4
      (reconcile (findEntryByImageHash Store.init "h") aC4)).items
    rw [hwd1items]
    norm_num [sumInVals, aC4]
  refine ⟨rfl, ?_, ?_, by norm_num⟩
  · show sumInVals (reconcile (findEntryByImageHash Store.init "h") aC4).1.items = 5
    rw [show findEntryByImageHash Store.init "h" = none from rfl, reconcile_none]
    norm_num [aC4, sumInVals]
  · show sumInVals (reconcile
      (findEntryByImageHash (ingest Store.init 0 "h" "p" aC4).1 "h") aC4).1.items = 6
    rw [show findEntryByImageHash (ingest Store.init 0 "h" "p" aC4).1 "h" =
        findEntryByImageHash (logWaste Store.init 0 (ingestWD 0 "h" "p" aC4
          (reconcile (findEntryByImageHash Store.init "h") aC4))).1 "h" from rfl]
    rw [hfind2, reconcile_some_pos _ _ hpos1]
    simp +decide [alignWith, alignOne, lookupPrev, lowerStr, sumInVals, aC4, assignItems,
      mkItem, toClientItem, Store.init]
    norm_num

/-- C4 (witness). -/
theorem claim_C4_witness :
    (ingest Store.init 0 "h" "p" aW4).2.wasteEntry.id ≠
      (ingest (ingest Store.init 0 "h" "p" aW4).1 1 "h" "q" aW4).2.wasteEntry.id :=
  (claim_C4_double_upload Store.init 0 1 "h" "p" "q" aW4 (by decide) rfl
    (by intro it hit; simp [Store.init] at hit) (by decide)
    (by norm_num [sumInVals, aW4])).1

/-- C6 (witness). -/
theorem claim_C6_witness :
    (deleteEntryById stW6 1).2.success = true ∧
    (deleteEntryById stW6 1).1.nextEntryId = stW6.nextEntryId :=
  ⟨((claim_C6_delete_frame stW6 1 (by decide)).1 (by decide)).1,
   ((claim_C6_delete_frame stW6 1 (by decide)).1 (by decide)).2.2.2.1⟩

/-- C7 (counterexample).  Two entries share hash `"h"` and the same
timestamp; the lookup returns entry 1 (the earliest stored), not the
highest id 2 as the claim asserts. -/
theorem claim_C7_counterexample :
    (findEntryByImageHash stC7 "h").map (fun p => p.entry.id) = some 1 ∧
    (∃ e ∈ stC7.entries, e.id = 2 ∧ e.image_hash = "h" ∧ e.timestamp = 100) ∧
    (∀ e ∈ stC7.entries, e.timestamp = 100) ∧
    (1 : Nat) ≠ 2 := by
  refine ⟨rfl, by decide, by decide, by decide⟩

/-- C7 (witness). -/
theorem claim_C7_witness :
    rW7.entry ∈ stW7.entries ∧ rW7.entry.image_hash = "h" :=
  ⟨(claim_C7_hash_lookup stW7 "h" rW7 rfl).1,
   (claim_C7_hash_lookup stW7 "h" rW7 rfl).2.1⟩

/-- C9 (witness).  Five daily buckets with values 1, 1, 13, 13, 13: the
3-day mean 13 exceeds 1.2× the overall mean 8.2, so the alert fires. -/
theorem claim_C9_witness :
    (getSuggestions stW9 3024000000).any (fun s => s.type == "trend_alert") = true := by
  apply (claim_C9_trend_alert stW9 3024000000).1.mpr
  have hD : (getWasteStats stW9 3024000000).dailyStats =
      [⟨34, 1, 13⟩, ⟨33, 1, 13⟩, ⟨32, 1, 13⟩, ⟨31, 1, 1⟩, ⟨30, 1, 1⟩] := by
    show dailyBuckets (3024000000 - thirtyDaysMs) stW9.entries = _
    decide
  rw [hD]
  constructor
  · norm_num [recentAvg3, bucketsAvg]
  · norm_num [bucketsAvg]

/-- C10 (witness). -/
theorem claim_C10_witness :
    (getWasteHistory stW10 ⟨none, none, none⟩).length ≤ 50 :=
  (claim_C10_history_defaults stW10 none none).1

end ScrapSnap
